import Mathlib

/-!  Verification of the trading-calendar module (`tqsdk/calendar.py`).

Shallow embedding conventions used throughout this file:

* A calendar date is its proleptic-Gregorian day number (`civilToDay y m d`,
  days counted from 0000-03-01), so pandas `Timestamp` ordering becomes `Nat`
  ordering.  1970-01-01 is day 719468, a Thursday, and
  `dayofweek n = (n + 2) % 7` agrees with `pandas.Series.dt.dayofweek`
  (Monday = 0 .. Sunday = 6).
* The two module-level caches (`rest_days_df` / `chinese_holidays_range`,
  and `TqContCalendar.continuous`) are threaded explicitly as state values.
* `requests.get` is modelled by handing the function an `Option` of the
  received response: `none` stands for a transport failure, in which case
  the `requests` exception propagates (`CalError.fetchError`).
* pandas DataFrames are lists of rows; a missing value (`NaN`) in the
  `underlying` column is `Option.none`.
-/

/-- Era day count for a (possibly month-shifted) civil year `y`: the number
of days from 0000-03-01 up to March 1st of year `y` (standard
days-from-civil arithmetic). -/
def civilDoe (y : Nat) : Nat :=
  (y / 400) * 146097 + ((y % 400) * 365 + (y % 400) / 4 - (y % 400) / 100)

/-- Day-of-year offset of month `m`, day `d` inside a March-first civil
year (standard days-from-civil arithmetic). -/
def monthDoy (m d : Nat) : Nat :=
  (153 * (if 2 < m then m - 3 else m + 9) + 2) / 5 + (d - 1)

/-- Proleptic-Gregorian day number of the calendar date `y-m-d`. -/
def civilToDay (y m d : Nat) : Nat :=
  civilDoe (if m ≤ 2 then y - 1 else y) + monthDoy m d

/-- Weekday of a day number, matching `pandas.Series.dt.dayofweek`
(Monday = 0, ..., Sunday = 6). -/
def dayofweek (n : Nat) : Nat := (n + 2) % 7

/-- Gregorian leap-year test, as used by `pandas.to_datetime` validation. -/
def isLeap (y : Nat) : Bool := (y % 4 == 0 && y % 100 != 0) || y % 400 == 0

/-- Number of days of month `m` in year `y` (`0` for an out-of-range month),
as used by `pandas.to_datetime` validation. -/
def daysInMonth (y m : Nat) : Nat :=
  [31, if isLeap y then 29 else 28, 31, 30, 31, 30, 31, 31, 30, 31, 30, 31].getD (m - 1) 0

/-- One element of the holiday JSON payload.  `iso y m d` is a string of
shape `"y-m-d"` with numeric fields (possibly an invalid date such as
`2019-02-31`); `junk` is any other string, on which `int(s.split('-')[0])`
already fails. -/
inductive DateStr where
  | iso (y m d : Nat)
  | junk
deriving DecidableEq

/-- Whether a payload element is a well-formed calendar date, i.e. whether
`pandas.to_datetime(s, format='%Y-%m-%d')` accepts it. -/
def isoValid : DateStr → Bool
  | .iso y m d => 1 ≤ y && 1 ≤ m && m ≤ 12 && 1 ≤ d && d ≤ daysInMonth y m
  | .junk => false

/-- Python `int(s.split('-')[0])`: extracts the year, raising `ValueError`
(modelled as `none`) on a non-numeric first field. -/
def parseYear : DateStr → Option Nat
  | .iso y _ _ => some y
  | .junk => none

/-- pandas `to_datetime(s, format='%Y-%m-%d')` for one element: the day
number on success, `none` when the string is rejected. -/
def toDatetime (s : DateStr) : Option Nat :=
  match s with
  | .iso y m d => if isoValid s then some (civilToDay y m d) else none
  | .junk => none

/-- pandas `to_datetime` over the whole payload list: all-or-nothing. -/
def allDatetimes : List DateStr → Option (List Nat)
  | [] => some []
  | x :: xs =>
    match toDatetime x, allDatetimes xs with
    | some v, some vs => some (v :: vs)
    | _, _ => none

/-- Year field of a payload element (`0` for `junk`; only used on `iso`). -/
def isoYear : DateStr → Nat
  | .iso y _ _ => y
  | .junk => 0

/-- Day number of a payload element (`0` for `junk`; only used on `iso`). -/
def isoDay : DateStr → Nat
  | .iso y m d => civilToDay y m d
  | .junk => 0

/-- Day numbers of a fully valid holiday payload, i.e. the `date` column of
`rest_days_df`. -/
def holidayDays (xs : List DateStr) : List Nat := xs.map isoDay

/-- Range computed by `_init_chinese_rest_days`: Jan 1 of the first
element's year to Dec 31 of the last element's year
(`chinese_holidays_range`). -/
def holidayRangeOf (xs : List DateStr) : Nat × Nat :=
  (civilToDay (isoYear (xs.headD .junk)) 1 1,
   civilToDay (isoYear (xs.getLastD .junk)) 12 31)

/-- Body of an HTTP response for the holiday URL: either a JSON list of
strings or a body `rsp.json()` cannot decode. -/
inductive Payload where
  | json (xs : List DateStr)
  | notJson
deriving DecidableEq

/-- An HTTP response as seen by `_init_chinese_rest_days`. -/
structure HttpResp where
  status : Nat
  payload : Payload
deriving DecidableEq

/-- Python exceptions that can escape the module, bucketed by kind:
`fetchError` for `requests` transport errors and `raise_for_status`,
`parseError` for `ValueError` (JSON decode, `int()`, `to_datetime`),
`indexError` for out-of-bounds row access, and the explicit `Exception`
raised for unknown continuous-contract symbols (carrying the `symbols`
argument interpolated into its message). -/
inductive CalError where
  | fetchError
  | parseError
  | indexError
  | unknownSeries (symbols : List String)
deriving DecidableEq

/-- The two module-level globals of `calendar.py`: `rest_days_df` (the
holiday date column) and `chinese_holidays_range`. -/
structure HolidayCache where
  rest_days_df : Option (List Nat)
  chinese_holidays_range : Option (Nat × Nat)
deriving DecidableEq

/-- Model of `_init_chinese_rest_days`.  `resp` is the outcome of
`requests.get` (`none` = transport failure).  Returns the new global
state, whether an HTTP fetch was performed, and the returned
`chinese_holidays_range` (or the escaping exception).  Mirrors the source
statement by statement: cached return when `rest_days_df` is not `None`;
`rsp.json()`; `chinese_holidays[0]` / `chinese_holidays[-1]`;
`int(...split('-')[0])` for both ends; assignment of
`chinese_holidays_range`; `pd.to_datetime` of the full list; assignment of
`rest_days_df`.  Note that the source never consults `rsp.status_code`. -/
def init_chinese_rest_days (st : HolidayCache) (resp : Option HttpResp) :
    HolidayCache × Bool × Except CalError (Option (Nat × Nat)) :=
  match st.rest_days_df with
  | some _ => (st, false, .ok st.chinese_holidays_range)
  | none =>
    match resp with
    | none => (st, true, .error .fetchError)
    | some rsp =>
      match rsp.payload with
      | .notJson => (st, true, .error .parseError)
      | .json xs =>
        match xs.head?, xs.getLast? with
        | some dfirst, some dlast =>
          match parseYear dfirst, parseYear dlast with
          | some y1, some y2 =>
            let rg := (civilToDay y1 1 1, civilToDay y2 12 31)
            match allDatetimes xs with
            | some ds =>
              ({ rest_days_df := some ds, chinese_holidays_range := some rg }, true,
                .ok (some rg))
            | none =>
              ({ st with chinese_holidays_range := some rg }, true, .error .parseError)
          | _, _ => (st, true, .error .parseError)
        | _, _ => (st, true, .error .indexError)

/-- pandas `date_range(start, end, freq='D')`: every day of the inclusive
range, ascending (empty when `start_dt > end_dt`). -/
def dateRange (start_dt end_dt : Nat) : List Nat :=
  (List.range (end_dt + 1 - start_dt)).map (fun i => start_dt + i)

/-- The per-day flag of `_get_trading_calendar`:
`df['date'].dt.dayofweek.lt(5) & ~df['date'].isin(rest_days_df['date'])`. -/
def isTradingDay (holidays : List Nat) (d : Nat) : Bool :=
  decide (dayofweek d < 5) && !(holidays.contains d)

/-- Model of `_get_trading_calendar` (rows of the returned DataFrame), with
the holiday date column `holidays` already loaded. -/
def get_trading_calendar (start_dt end_dt : Nat) (holidays : List Nat) :
    List (Nat × Bool) :=
  (dateRange start_dt end_dt).map (fun d => (d, isTradingDay holidays d))

/-- The trading-day index kept by `TqContCalendar.__init__`:
`self.df.loc[self.df.trading, ['date']]` after `reset_index`. -/
def tradingDays (start_dt end_dt : Nat) (holidays : List Nat) : List Nat :=
  ((get_trading_calendar start_dt end_dt holidays).filter (fun r => r.2)).map
    (fun r => r.1)

theorem civilToDay_epoch : civilToDay 1970 1 1 = 719468 := by decide

theorem dayofweek_epoch : dayofweek (civilToDay 1970 1 1) = 3 := by decide

theorem dayofweek_saturday : dayofweek (civilToDay 2019 12 7) = 5 := by decide

/-- Catalog held in the class attribute `TqContCalendar.continuous`:
continuous-symbol key to raw roll list (`[dateYYYYMMDD, underlying]`
pairs, as downloaded). -/
abbrev Catalog := List (String × List (Nat × String))

/-- An HTTP response for the continuous-table URL: status code and decoded
JSON object (`none` when the body is not JSON). -/
structure ContResp where
  status : Nat
  payload : Option (List (String × List (Nat × String)))
deriving DecidableEq

/-- Model of the continuous-table load inside `TqContCalendar.__init__`:
cached return when the class attribute is populated; otherwise
`requests.get` (`none` = transport failure), `rsp.raise_for_status()`
(this load, unlike the holiday load, checks the status code), and
`{f"KQ.m@{k}": v for k, v in rsp.json().items()}`. -/
def init_continuous (cache : Option Catalog) (resp : Option ContResp) :
    Option Catalog × Bool × Except CalError Catalog :=
  match cache with
  | some c => (some c, false, .ok c)
  | none =>
    match resp with
    | none => (none, true, .error .fetchError)
    | some rsp =>
      if 400 ≤ rsp.status then (none, true, .error .fetchError)
      else
        match rsp.payload with
        | none => (none, true, .error .parseError)
        | some kvs =>
          let cat := kvs.map (fun kv => ("KQ.m@" ++ kv.1, kv.2))
          (some cat, true, .ok cat)

/-- pandas `to_datetime(n, format='%Y%m%d')`: day number of a raw
`YYYYMMDD` integer from the continuous table. -/
def parseYYYYMMDD (n : Nat) : Nat :=
  civilToDay (n / 10000) (n / 100 % 100) (n % 100)

/-- Sorted, deduplicated union of the two date columns: the `_cst_date`
key values of `pd.merge(temp_df, self.df, sort=True, how="outer",
on="_cst_date")`. -/
def mergeDates (rollDates trading : List Nat) : List Nat :=
  List.insertionSort (· ≤ ·) ((rollDates ++ trading).dedup)

/-- First roll entry carrying a given date (used to describe merge rows). -/
def lookupRoll (roll : List (Nat × String)) (d : Nat) : Option String :=
  (roll.find? (fun p => p.1 == d)).map Prod.snd

/-- Rows of the outer merge, sorted by the date key: for each key value,
all left (roll) rows with that key in order, or a single row with a
missing `underlying` when the key comes only from the trading-day frame.
This is exactly pandas outer-join row production given that the
trading-day frame has unique keys. -/
def mergedRows (roll : List (Nat × String)) (trading : List Nat) :
    List (Nat × Option String) :=
  (mergeDates (roll.map Prod.fst) trading).flatMap (fun d =>
    let hits := roll.filter (fun p => p.1 == d)
    if hits.isEmpty then [(d, none)] else hits.map (fun p => (p.1, some p.2)))

/-- pandas `merge_result.ffill()` restricted to the `underlying` column:
every missing cell takes the nearest earlier non-missing value. -/
def ffillCells : Option String → List (Nat × Option String) → List (Nat × Option String)
  | _, [] => []
  | acc, r :: rest =>
    match r.2 with
    | some u => (r.1, some u) :: ffillCells (some u) rest
    | none => (r.1, acc) :: ffillCells acc rest

/-- The series `s` of `_ensure_cont_on_df`, for an already-parsed roll
list: merge, forward-fill, `fillna("")`, then keep only rows whose date is
one of the trading days, and take the `underlying` column. -/
def contValues (roll : List (Nat × String)) (trading : List Nat) : List String :=
  (((ffillCells none (mergedRows roll trading)).map (fun r => (r.1, r.2.getD ""))).filter
      (fun r => trading.contains r.1)).map Prod.snd

/-- pandas column assignment `self.df[cont] = pd.Series(s.values)`: the
value series is attached by position (`RangeIndex` alignment), so surplus
values are dropped and absent positions become `NaN` (`none`). -/
def setColumn (s : List String) (n : Nat) : List (Option String) :=
  (List.range n).map (fun i => s.get? i)

/-- Model of `_ensure_cont_on_df` for one continuous symbol: parse the raw
roll dates (`%Y%m%d`), build the merged/filled/filtered series, and attach
it to the trading-day frame by position. -/
def ensure_cont_on_df (rawRoll : List (Nat × String)) (trading : List Nat) :
    List (Option String) :=
  setColumn (contValues (rawRoll.map (fun p => (parseYYYYMMDD p.1, p.2))) trading)
    trading.length

/-- The DataFrame owned by a `TqContCalendar` instance: the trading-day
`date` index plus one `underlying` column per continuous symbol. -/
structure ContTable where
  dates : List Nat
  cols : List (String × List (Option String))
deriving DecidableEq

/-- Python `TqContCalendar.continuous[cont]` (dict access; total here
because it is only reached for validated keys). -/
def lookupCont (catalog : Catalog) (s : String) : List (Nat × String) :=
  ((catalog.find? (fun kv => kv.1 == s)).map Prod.snd).getD []

/-- Tail of `TqContCalendar.__init__` after symbol validation: reading
`self.df.iloc[0]` raises `IndexError` on an empty trading-day frame;
otherwise every requested symbol's column is attached. -/
def buildTable (catalog : Catalog) (trading : List Nat) (symbols : List String) :
    Except CalError ContTable :=
  if trading.isEmpty then .error .indexError
  else
    .ok { dates := trading,
          cols := symbols.map (fun s => (s, ensure_cont_on_df (lookupCont catalog s) trading)) }

/-- Model of `TqContCalendar.__init__` with the continuous catalog already
loaded (the load itself is `init_continuous`): build the trading-day
frame, validate an explicit `symbols` list against the catalog keys
(raising with the full `symbols` list in the message), then read
`self.df.iloc[0]` and attach one column per symbol. -/
def tq_init (catalog : Catalog) (start_dt end_dt : Nat) (holidays : List Nat)
    (symbols : Option (List String)) : Except CalError ContTable :=
  let trading := tradingDays start_dt end_dt holidays
  match symbols with
  | some syms =>
    if syms.all (fun s => catalog.any (fun kv => kv.1 == s)) then
      buildTable catalog trading syms
    else .error (.unknownSeries syms)
  | none => buildTable catalog trading (catalog.map Prod.fst)

/-- Nanosecond timestamp of a day's midnight on the market-timezone
(CST) axis, the scale on which `_get_cont_underlying_on_date` compares. -/
def dayNanos (d : Nat) : Nat := d * 86400000000000

/-- Row `i` of the table: its date and, for every configured series, the
cell of that series' column. -/
def rowAt (t : ContTable) (i : Nat) : Nat × List (String × Option String) :=
  (t.dates.getD i 0, t.cols.map (fun c => (c.1, c.2.getD i none)))

/-- All rows of the table in order. -/
def tableRows (t : ContTable) : List (Nat × List (String × Option String)) :=
  (List.range t.dates.length).map (rowAt t)

/-- Model of `_get_cont_underlying_on_date`: keep the rows whose
(midnight, CST) date is `≥` the queried instant, then `iloc[0:1]`. -/
def get_cont_underlying_on_date (t : ContTable) (trading_day : Nat) :
    List (Nat × List (String × Option String)) :=
  ((tableRows t).filter (fun r => trading_day ≤ dayNanos r.1)).take 1

/-- Most recent roll entry (of an ascending roll list) dated on or before
`d`, as named by the specification. -/
def lastRollOnOrBefore (roll : List (Nat × String)) (d : Nat) : Option String :=
  ((roll.filter (fun p => p.1 ≤ d)).getLast?).map Prod.snd

/-- Most recent roll entry dated strictly before `d`. -/
def lastRollBefore (roll : List (Nat × String)) (d : Nat) : Option String :=
  ((roll.filter (fun p => p.1 < d)).getLast?).map Prod.snd

lemma dateRange_nodup (s e : Nat) : (dateRange s e).Nodup := by
  unfold dateRange
  exact (List.nodup_range _).map (fun a b => by omega)

lemma dateRange_pairwise (s e : Nat) : (dateRange s e).Pairwise (· < ·) := by
  unfold dateRange
  exact (List.pairwise_lt_range _).map _ (fun a b h => by omega)

lemma mem_dateRange {s e d : Nat} : d ∈ dateRange s e ↔ s ≤ d ∧ d ≤ e := by
  unfold dateRange
  simp only [List.mem_map, List.mem_range]
  constructor
  · rintro ⟨i, hi, rfl⟩; omega
  · rintro ⟨h1, h2⟩; exact ⟨d - s, by omega, by omega⟩

lemma filter_map_pair (l : List Nat) (f : Nat → Bool) (p : Nat × Bool → Bool) :
    (l.map (fun d => (d, f d))).filter p =
      (l.filter (fun d => p (d, f d))).map (fun d => (d, f d)) := by
  induction l with
  | nil => rfl
  | cons a t ih =>
    simp only [List.map_cons, List.filter_cons]
    by_cases h : p (a, f a) = true
    · simp [h, ih]
    · simp [h, ih]

lemma trading_calendar_filter_len (s e d : Nat) (holidays : List Nat)
    (h1 : s ≤ d) (h2 : d ≤ e) :
    ((get_trading_calendar s e holidays).filter (fun r => r.1 == d)).length = 1 := by
  unfold get_trading_calendar
  rw [filter_map_pair]
  simp only [List.length_map]
  have : (fun x => (x, isTradingDay holidays x).1 == d) = (fun x => x == d) := rfl
  rw [this, ← List.countP_eq_length_filter]
  have hc : (dateRange s e).countP (fun x => x == d) = (dateRange s e).count d := rfl
  rw [hc]
  exact List.count_eq_one_of_mem (dateRange_nodup s e) (mem_dateRange.mpr ⟨h1, h2⟩)

lemma isTradingDay_iff (holidays : List Nat) (d : Nat) :
    isTradingDay holidays d = true ↔ dayofweek d < 5 ∧ d ∉ holidays := by
  simp [isTradingDay]

/-- C1: for every date `d` in the inclusive range handed to
`_get_trading_calendar`, the produced table has exactly one row for `d`,
the rows are the days of the range in ascending order, and a row's
`trading` flag is `true` iff its weekday is Monday..Friday and the date is
not in the fetched holiday set. -/
theorem C1_trading_calendar (s e : Nat) (holidays : List Nat) :
    ((get_trading_calendar s e holidays).map Prod.fst = dateRange s e ∧
      ((get_trading_calendar s e holidays).map Prod.fst).Pairwise (· < ·)) ∧
    (∀ d, s ≤ d → d ≤ e →
      ((get_trading_calendar s e holidays).filter (fun r => r.1 == d)).length = 1) ∧
    (∀ r ∈ get_trading_calendar s e holidays,
      r.2 = true ↔ dayofweek r.1 < 5 ∧ r.1 ∉ holidays) := by
  refine ⟨⟨?_, ?_⟩, ?_, ?_⟩
  · simp only [get_trading_calendar, List.map_map]
    have : (Prod.fst ∘ fun d => (d, isTradingDay holidays d)) = id := rfl
    rw [this, List.map_id]
  · simp only [get_trading_calendar, List.map_map]
    have : (Prod.fst ∘ fun d => (d, isTradingDay holidays d)) = id := rfl
    rw [this, List.map_id]
    exact dateRange_pairwise s e
  · exact fun d h1 h2 => trading_calendar_filter_len s e d holidays h1 h2
  · intro r hr
    simp only [get_trading_calendar, List.mem_map] at hr
    obtain ⟨x, _, rfl⟩ := hr
    exact isTradingDay_iff holidays x

/-- Witness for C1, on the specification's own example: holiday set
{2019-12-07, 2019-12-08}, range 2019-12-05 .. 2019-12-09 gives trading
flags `[T, T, F, F, T]`, and the day 2019-12-06 has exactly one row. -/
theorem C1_trading_calendar_witness :
    ((get_trading_calendar (civilToDay 2019 12 5) (civilToDay 2019 12 9)
        [civilToDay 2019 12 7, civilToDay 2019 12 8]).filter
        (fun r => r.1 == civilToDay 2019 12 6)).length = 1 ∧
    (get_trading_calendar (civilToDay 2019 12 5) (civilToDay 2019 12 9)
        [civilToDay 2019 12 7, civilToDay 2019 12 8]).map Prod.snd =
      [true, true, false, false, true] :=
  ⟨(C1_trading_calendar (civilToDay 2019 12 5) (civilToDay 2019 12 9)
      [civilToDay 2019 12 7, civilToDay 2019 12 8]).2.1 (civilToDay 2019 12 6)
      (by decide) (by decide),
    by decide⟩
instance natLTAntisymm : IsAntisymm Nat (· < ·) :=
  ⟨fun _ _ h h' => absurd h' (Nat.lt_asymm h)⟩

lemma mergeDates_sorted (rd td : List Nat) : (mergeDates rd td).Pairwise (· ≤ ·) :=
  List.sorted_insertionSort (· ≤ ·) ((rd ++ td).dedup)

lemma mergeDates_nodup (rd td : List Nat) : (mergeDates rd td).Nodup :=
  ((List.perm_insertionSort (· ≤ ·) ((rd ++ td).dedup)).nodup_iff).mpr
    (List.nodup_dedup _)

lemma pairwise_lt_of_le_nodup {l : List Nat} (h1 : l.Pairwise (· ≤ ·)) (h2 : l.Nodup) :
    l.Pairwise (· < ·) := by
  induction l with
  | nil => exact List.Pairwise.nil
  | cons a t ih =>
    rw [List.pairwise_cons] at h1 ⊢
    rw [List.nodup_cons] at h2
    exact ⟨fun x hx => Nat.lt_of_le_of_ne (h1.1 x hx) (fun he => h2.1 (he ▸ hx)),
      ih h1.2 h2.2⟩

lemma mergeDates_pairwise_lt (rd td : List Nat) : (mergeDates rd td).Pairwise (· < ·) :=
  pairwise_lt_of_le_nodup (mergeDates_sorted rd td) (mergeDates_nodup rd td)

lemma mem_mergeDates {rd td : List Nat} {x : Nat} :
    x ∈ mergeDates rd td ↔ x ∈ rd ∨ x ∈ td := by
  unfold mergeDates
  rw [(List.perm_insertionSort (· ≤ ·) _).mem_iff, List.mem_dedup, List.mem_append]

lemma flatMap_eq_map {α β : Type} (l : List α) (g : α → List β) (h : α → β)
    (H : ∀ a ∈ l, g a = [h a]) : l.flatMap g = l.map h := by
  induction l with
  | nil => rfl
  | cons a t ih =>
    rw [List.flatMap_cons, List.map_cons, H a (List.mem_cons_self a t),
      ih (fun x hx => H x (List.mem_cons_of_mem a hx))]
    rfl

lemma filter_eq_find_toList {roll : List (Nat × String)}
    (h : (roll.map Prod.fst).Nodup) (d : Nat) :
    roll.filter (fun p => p.1 == d) = (roll.find? (fun p => p.1 == d)).toList := by
  induction roll with
  | nil => rfl
  | cons q rest ih =>
    rw [List.map_cons, List.nodup_cons] at h
    rw [List.filter_cons, List.find?_cons]
    by_cases hqd : (q.1 == d) = true
    · rw [hqd]
      simp only [if_true]
      have hrest : rest.filter (fun p => p.1 == d) = [] := by
        rw [List.filter_eq_nil_iff]
        intro p hp hpd
        have hp1 : p.1 = d := by simpa using hpd
        have hq1 : q.1 = d := by simpa using hqd
        have : p.1 = q.1 := by rw [hp1, hq1]
        exact h.1 (this ▸ List.mem_map_of_mem Prod.fst hp)
      rw [hrest]
      rfl
    · rw [if_neg hqd]
      simp only [Bool.not_eq_true] at hqd
      rw [hqd]
      simp only [Bool.false_eq_true, if_false]
      exact ih h.2

lemma mergedRows_eq_map {roll : List (Nat × String)} (trading : List Nat)
    (h : (roll.map Prod.fst).Nodup) :
    mergedRows roll trading =
      (mergeDates (roll.map Prod.fst) trading).map (fun d => (d, lookupRoll roll d)) := by
  unfold mergedRows
  apply flatMap_eq_map
  intro d _
  rw [filter_eq_find_toList h d]
  unfold lookupRoll
  cases hfd : roll.find? (fun p => p.1 == d) with
  | none => rfl
  | some p =>
    have hp1 : p.1 = d := by simpa using List.find?_some hfd
    simp [hp1]

lemma getLast?_cons_of_ne_nil {α : Type} (a : α) {l : List α} (h : l ≠ []) :
    (a :: l).getLast? = l.getLast? := by
  cases l with
  | nil => exact absurd rfl h
  | cons b t => exact List.getLast?_cons_cons

lemma mem_ge_head {l : List Nat} (hp : l.Pairwise (· < ·)) {x dh : Nat}
    (hh : l.head? = some dh) (hx : x ∈ l) : dh ≤ x := by
  cases l with
  | nil => cases hx
  | cons a t =>
    have ha : a = dh := by simpa using hh
    rw [List.pairwise_cons] at hp
    rcases List.mem_cons.mp hx with h1 | h2
    · omega
    · exact Nat.le_of_lt (ha ▸ hp.1 x h2)

lemma lastRoll_lookup_some {roll : List (Nat × String)}
    (hroll : (roll.map Prod.fst).Pairwise (· < ·)) {d : Nat} {u : String}
    (h : lookupRoll roll d = some u) : lastRollOnOrBefore roll d = some u := by
  induction roll with
  | nil => cases h
  | cons q rest ih =>
    rw [List.map_cons, List.pairwise_cons] at hroll
    unfold lookupRoll at h
    rw [List.find?_cons] at h
    unfold lastRollOnOrBefore
    rw [List.filter_cons]
    by_cases hqd : (q.1 == d) = true
    · simp only [hqd] at h
      have hq1 : q.1 = d := by simpa using hqd
      have hu : q.2 = u := by simpa using h
      have hrest : rest.filter (fun p => decide (p.1 ≤ d)) = [] := by
        rw [List.filter_eq_nil_iff]
        intro p hp
        have : q.1 < p.1 := hroll.1 p.1 (List.mem_map_of_mem Prod.fst hp)
        simp only [decide_eq_true_eq]
        omega
      have hql : (decide (q.1 ≤ d)) = true := by simp [hq1]
      rw [if_pos hql, hrest]
      simp [hu]
    · have hqd' : (q.1 == d) = false := by simpa using hqd
      simp only [hqd'] at h
      have ihv := ih hroll.2 (by unfold lookupRoll; exact h)
      by_cases hqle : (decide (q.1 ≤ d)) = true
      · rw [if_pos hqle]
        have hne : rest.filter (fun p => decide (p.1 ≤ d)) ≠ [] := by
          intro hnil
          unfold lastRollOnOrBefore at ihv
          rw [hnil] at ihv
          cases ihv
        rw [getLast?_cons_of_ne_nil _ hne]
        exact ihv
      · rw [if_neg (by simpa using hqle)]
        exact ihv

lemma lookupRoll_none_iff {roll : List (Nat × String)} {d : Nat} :
    lookupRoll roll d = none ↔ ∀ p ∈ roll, p.1 ≠ d := by
  unfold lookupRoll
  simp [List.find?_eq_none]

lemma lastRoll_eq_before_of_none {roll : List (Nat × String)} {d : Nat}
    (h : lookupRoll roll d = none) : lastRollOnOrBefore roll d = lastRollBefore roll d := by
  unfold lastRollOnOrBefore lastRollBefore
  have hfe : roll.filter (fun p => decide (p.1 ≤ d)) = roll.filter (fun p => decide (p.1 < d)) := by
    apply List.filter_congr
    intro p hp
    have := lookupRoll_none_iff.mp h p hp
    simp only [decide_eq_decide]
    omega
  rw [hfe]

lemma lastRoll_gap {roll : List (Nat × String)} {c d : Nat} (hcd : c < d)
    (hgap : ∀ p ∈ roll, ¬(c < p.1 ∧ p.1 < d)) :
    lastRollOnOrBefore roll c = lastRollBefore roll d := by
  unfold lastRollOnOrBefore lastRollBefore
  have hfe : roll.filter (fun p => decide (p.1 ≤ c)) = roll.filter (fun p => decide (p.1 < d)) := by
    apply List.filter_congr
    intro p hp
    have := hgap p hp
    simp only [decide_eq_decide]
    omega
  rw [hfe]

lemma ffillCells_eq {roll : List (Nat × String)}
    (hroll : (roll.map Prod.fst).Pairwise (· < ·)) :
    ∀ (dates : List Nat) (acc : Option String),
      dates.Pairwise (· < ·) →
      (∀ p ∈ roll, p.1 ∈ dates ∨ (∀ x ∈ dates, p.1 < x) ∨ (∀ x ∈ dates, x < p.1)) →
      (∀ dh, dates.head? = some dh → acc = lastRollBefore roll dh) →
      ffillCells acc (dates.map (fun d => (d, lookupRoll roll d))) =
        dates.map (fun d => (d, lastRollOnOrBefore roll d))
  | [], acc, _, _, _ => rfl
  | d :: rest, acc, hdates, hsplit, hacc => by
    rw [List.map_cons, List.map_cons]
    rw [List.pairwise_cons] at hdates
    -- the invariant for the remaining dates
    have hsplit' : ∀ p ∈ roll, p.1 ∈ rest ∨ (∀ x ∈ rest, p.1 < x) ∨ (∀ x ∈ rest, x < p.1) := by
      intro p hp
      rcases hsplit p hp with hin | hlt | hgt
      · rcases List.mem_cons.mp hin with he | hm
        · exact Or.inr (Or.inl (fun x hx => he ▸ hdates.1 x hx))
        · exact Or.inl hm
      · exact Or.inr (Or.inl (fun x hx => hlt x (List.mem_cons_of_mem d hx)))
      · exact Or.inr (Or.inr (fun x hx => hgt x (List.mem_cons_of_mem d hx)))
    -- no roll date sits strictly between d and the head of rest
    have hgap : ∀ dh, rest.head? = some dh → ∀ p ∈ roll, ¬(d < p.1 ∧ p.1 < dh) := by
      intro dh hdh p hp hbad
      rcases hsplit p hp with hin | hlt | hgt
      · rcases List.mem_cons.mp hin with he | hm
        · omega
        · have := mem_ge_head hdates.2 hdh hm
          omega
      · have := hlt d (List.mem_cons_self d rest)
        omega
      · have hdhm : dh ∈ d :: rest := by
          cases rest with
          | nil => cases hdh
          | cons b t =>
            have : b = dh := by simpa using hdh
            exact this ▸ List.mem_cons_of_mem d (List.mem_cons_self b t)
        have := hgt dh hdhm
        omega
    have hd_lt_head : ∀ dh, rest.head? = some dh → d < dh := by
      intro dh hdh
      cases rest with
      | nil => cases hdh
      | cons b t =>
        have : b = dh := by simpa using hdh
        exact this ▸ hdates.1 b (List.mem_cons_self b t)
    cases hl : lookupRoll roll d with
    | some u =>
      unfold ffillCells
      simp only [hl]
      rw [lastRoll_lookup_some hroll hl]
      have htail := ffillCells_eq hroll rest (some u) hdates.2 hsplit'
        (fun dh hdh => by
          rw [← lastRoll_lookup_some hroll hl]
          exact lastRoll_gap (hd_lt_head dh hdh) (hgap dh hdh))
      rw [htail]
    | none =>
      unfold ffillCells
      simp only [hl]
      have haccd : acc = lastRollBefore roll d := hacc d rfl
      have hval : lastRollOnOrBefore roll d = acc := by
        rw [lastRoll_eq_before_of_none hl, haccd]
      rw [← hval]
      have htail := ffillCells_eq hroll rest (lastRollOnOrBefore roll d) hdates.2 hsplit'
        (fun dh hdh => lastRoll_gap (hd_lt_head dh hdh) (hgap dh hdh))
      rw [htail]

lemma filter_map_comm {α β : Type} (l : List α) (f : α → β) (p : β → Bool) :
    (l.map f).filter p = (l.filter (fun a => p (f a))).map f := by
  induction l with
  | nil => rfl
  | cons a t ih =>
    rw [List.map_cons, List.filter_cons, List.filter_cons]
    by_cases h : p (f a) = true
    · rw [if_pos h, if_pos h, List.map_cons, ih]
    · rw [if_neg h, if_neg h, ih]

lemma filter_mem_trading (rd trading : List Nat) (ht : trading.Pairwise (· < ·)) :
    (mergeDates rd trading).filter (fun d => trading.contains d) = trading := by
  have hnodupt : trading.Nodup := ht.imp Nat.ne_of_lt
  have hnodupf : ((mergeDates rd trading).filter (fun d => trading.contains d)).Nodup :=
    (mergeDates_nodup rd trading).filter _
  have hsortedf : ((mergeDates rd trading).filter (fun d => trading.contains d)).Pairwise (· < ·) :=
    (mergeDates_pairwise_lt rd trading).filter _
  have hmem : ∀ x, x ∈ (mergeDates rd trading).filter (fun d => trading.contains d) ↔ x ∈ trading := by
    intro x
    rw [List.mem_filter]
    constructor
    · intro hx
      exact (List.elem_iff).mp hx.2
    · intro hx
      exact ⟨mem_mergeDates.mpr (Or.inr hx), (List.elem_iff).mpr hx⟩
  exact List.eq_of_perm_of_sorted
    ((List.perm_ext_iff_of_nodup hnodupf hnodupt).mpr hmem) hsortedf ht

lemma setColumn_eq_map_some (s : List String) : setColumn s s.length = s.map some := by
  unfold setColumn
  induction s with
  | nil => rfl
  | cons a t ih =>
    have h1 : (List.range (a :: t).length).map (fun i => (a :: t).get? i)
        = some a :: (List.range t.length).map (fun i => t.get? i) := by
      rw [List.length_cons, List.range_succ_eq_map, List.map_cons, List.map_map]
      rfl
    rw [h1, ih, List.map_cons]

lemma contValues_eq {roll : List (Nat × String)} {trading : List Nat}
    (hroll : (roll.map Prod.fst).Pairwise (· < ·))
    (htrading : trading.Pairwise (· < ·)) :
    contValues roll trading = trading.map (fun d => (lastRollOnOrBefore roll d).getD "") := by
  unfold contValues
  rw [mergedRows_eq_map trading (hroll.imp (fun h => Nat.ne_of_lt h))]
  rw [ffillCells_eq hroll (mergeDates (roll.map Prod.fst) trading) none
    (mergeDates_pairwise_lt _ _)
    (fun p hp => Or.inl (mem_mergeDates.mpr (Or.inl (List.mem_map_of_mem Prod.fst hp))))
    (fun dh hdh => by
      unfold lastRollBefore
      have hfe : roll.filter (fun p => decide (p.1 < dh)) = [] := by
        rw [List.filter_eq_nil_iff]
        intro p hp
        have hpm : p.1 ∈ mergeDates (roll.map Prod.fst) trading :=
          mem_mergeDates.mpr (Or.inl (List.mem_map_of_mem Prod.fst hp))
        have := mem_ge_head (mergeDates_pairwise_lt _ _) hdh hpm
        simp only [decide_eq_true_eq]
        omega
      rw [hfe]
      rfl)]
  rw [List.map_map, filter_map_comm, List.map_map]
  have hpred : (fun a => (trading.contains
      (((fun r => (r.1, r.2.getD "")) ∘ fun d => (d, lastRollOnOrBefore roll d)) a).1)) =
      (fun d => trading.contains d) := rfl
  rw [hpred, filter_mem_trading _ _ htrading]
  rfl

/-- C2: on every trading-day row, a series column holds the underlying of
the most recent roll entry dated on or before that row (forward-fill over
the outer merge, including entries dated on non-trading days or before the
range), and the empty string where no entry is dated on or before the row;
the value never depends on later entries (no backward-fill). -/
theorem C2_forward_fill (rawRoll : List (Nat × String)) (trading : List Nat)
    (hroll : (rawRoll.map (fun p => parseYYYYMMDD p.1)).Pairwise (· < ·))
    (htrading : trading.Pairwise (· < ·)) :
    ensure_cont_on_df rawRoll trading =
      trading.map (fun d =>
        some ((lastRollOnOrBefore (rawRoll.map (fun p => (parseYYYYMMDD p.1, p.2))) d).getD "")) := by
  unfold ensure_cont_on_df
  have hr : ((rawRoll.map (fun p => (parseYYYYMMDD p.1, p.2))).map Prod.fst).Pairwise (· < ·) := by
    rw [List.map_map]
    exact hroll
  rw [contValues_eq hr htrading]
  have hlen : trading.length = (trading.map (fun d =>
      (lastRollOnOrBefore (rawRoll.map (fun p => (parseYYYYMMDD p.1, p.2))) d).getD "")).length :=
    (List.length_map _ _).symm
  rw [hlen, setColumn_eq_map_some, List.map_map]
  rfl

/-- Witness for C2, on the specification's example: roll history
`[(2019-12-06, X2001), (2019-12-10, X2005)]` over trading days
12-06, 12-09, 12-10, 12-11, 12-12 aligns to
`[X2001, X2001, X2005, X2005, X2005]`. -/
theorem C2_forward_fill_witness :
    ensure_cont_on_df [(20191206, "X2001"), (20191210, "X2005")]
        [civilToDay 2019 12 6, civilToDay 2019 12 9, civilToDay 2019 12 10,
          civilToDay 2019 12 11, civilToDay 2019 12 12] =
      [some "X2001", some "X2001", some "X2005", some "X2005", some "X2005"] := by
  rw [C2_forward_fill _ _ (by decide) (by decide)]
  decide

lemma tradingDays_eq_filter (s e : Nat) (holidays : List Nat) :
    tradingDays s e holidays = (dateRange s e).filter (isTradingDay holidays) := by
  unfold tradingDays get_trading_calendar
  rw [filter_map_pair, List.map_map]
  have h1 : (Prod.fst ∘ fun d => (d, isTradingDay holidays d)) = id := rfl
  rw [h1, List.map_id]

lemma tradingDays_pairwise (s e : Nat) (holidays : List Nat) :
    (tradingDays s e holidays).Pairwise (· < ·) := by
  rw [tradingDays_eq_filter]
  exact (dateRange_pairwise s e).filter _

lemma ensure_cont_length (raw : List (Nat × String)) (trading : List Nat) :
    (ensure_cont_on_df raw trading).length = trading.length := by
  unfold ensure_cont_on_df setColumn
  rw [List.length_map, List.length_range]

lemma buildTable_spec (catalog : Catalog) (trading : List Nat) (symbols : List String)
    (hne : trading ≠ []) :
    buildTable catalog trading symbols =
      .ok ⟨trading, symbols.map (fun s => (s, ensure_cont_on_df (lookupCont catalog s) trading))⟩ := by
  unfold buildTable
  rw [if_neg (by simpa [List.isEmpty_iff] using hne)]

/-- C3: for every requested range, symbol list and roll-table content, the
built table has exactly one row per trading day of the range and no other
rows: its date index is precisely the trading-day filter of the range, and
every attached series column has exactly that many cells.  Stated both for
an explicit symbol list and for the default (all catalog keys). -/
theorem C3_row_invariant (catalog : Catalog) (s e : Nat) (holidays : List Nat)
    (syms : List String)
    (hvalid : syms.all (fun k => catalog.any (fun kv => kv.1 == k)) = true)
    (hne : tradingDays s e holidays ≠ []) :
    (∃ t, tq_init catalog s e holidays (some syms) = .ok t ∧
      t.dates = (dateRange s e).filter (isTradingDay holidays) ∧
      ∀ c ∈ t.cols, c.2.length = t.dates.length) ∧
    (∃ t, tq_init catalog s e holidays none = .ok t ∧
      t.dates = (dateRange s e).filter (isTradingDay holidays) ∧
      ∀ c ∈ t.cols, c.2.length = t.dates.length) := by
  constructor
  · refine ⟨⟨tradingDays s e holidays,
      syms.map (fun k => (k, ensure_cont_on_df (lookupCont catalog k) (tradingDays s e holidays)))⟩,
      ?_, ?_, ?_⟩
    · show (if (syms.all fun k => catalog.any fun kv => kv.1 == k) = true
          then buildTable catalog (tradingDays s e holidays) syms
          else Except.error (CalError.unknownSeries syms)) = _
      rw [if_pos hvalid, buildTable_spec _ _ _ hne]
    · exact tradingDays_eq_filter s e holidays
    · intro c hc
      simp only [List.mem_map] at hc
      obtain ⟨k, _, rfl⟩ := hc
      exact ensure_cont_length _ _
  · refine ⟨⟨tradingDays s e holidays,
      (catalog.map Prod.fst).map
        (fun k => (k, ensure_cont_on_df (lookupCont catalog k) (tradingDays s e holidays)))⟩,
      ?_, ?_, ?_⟩
    · show buildTable catalog (tradingDays s e holidays) (catalog.map Prod.fst) = _
      rw [buildTable_spec _ _ _ hne]
    · exact tradingDays_eq_filter s e holidays
    · intro c hc
      simp only [List.mem_map] at hc
      obtain ⟨k, _, rfl⟩ := hc
      exact ensure_cont_length _ _

/-- Witness for C3 at a concrete range (2019-12-05 .. 2019-12-09 with the
weekend 12-07/12-08 also listed as holidays) and a one-symbol catalog. -/
theorem C3_row_invariant_witness :
    ∃ t, tq_init [("KQ.m@DCE.a", [(20191206, "X2001")])] (civilToDay 2019 12 5)
        (civilToDay 2019 12 9) [civilToDay 2019 12 7, civilToDay 2019 12 8]
        (some ["KQ.m@DCE.a"]) = .ok t ∧
      t.dates = (dateRange (civilToDay 2019 12 5) (civilToDay 2019 12 9)).filter
        (isTradingDay [civilToDay 2019 12 7, civilToDay 2019 12 8]) ∧
      ∀ c ∈ t.cols, c.2.length = t.dates.length :=
  (C3_row_invariant [("KQ.m@DCE.a", [(20191206, "X2001")])] (civilToDay 2019 12 5)
    (civilToDay 2019 12 9) [civilToDay 2019 12 7, civilToDay 2019 12 8]
    ["KQ.m@DCE.a"] (by decide) (by decide)).1

lemma take_one_eq_head_toList {α : Type} (l : List α) : l.take 1 = l.head?.toList := by
  cases l <;> rfl

lemma head_filter_eq_find {α : Type} (p : α → Bool) (l : List α) :
    (l.filter p).head? = l.find? p := by
  induction l with
  | nil => rfl
  | cons a t ih =>
    rw [List.filter_cons, List.find?_cons]
    by_cases h : p a = true
    · rw [if_pos h, h]
      rfl
    · rw [if_neg h, Bool.not_eq_true] at *
      rw [h]
      exact ih

lemma find_eq_of_least {α : Type} (l : List α) (p : α → Bool) (i : Nat) (hi : i < l.length)
    (hlt : ∀ j (hj : j < l.length), j < i → p (l.get ⟨j, hj⟩) = false)
    (hp : p (l.get ⟨i, hi⟩) = true) : l.find? p = some (l.get ⟨i, hi⟩) := by
  induction l generalizing i with
  | nil => simp at hi
  | cons a t ih =>
    rw [List.find?_cons]
    cases i with
    | zero =>
      rw [show (a :: t).get ⟨0, hi⟩ = a from rfl] at hp ⊢
      rw [hp]
    | succ n =>
      have ha : p a = false := hlt 0 (by omega) (by omega)
      rw [ha]
      have hn : n < t.length := by
        rw [List.length_cons] at hi
        omega
      rw [show (a :: t).get ⟨n + 1, hi⟩ = t.get ⟨n, hn⟩ from rfl] at hp ⊢
      exact ih n hn
        (fun j hj hji => hlt (j + 1) (by rw [List.length_cons]; omega) (by omega)) hp

lemma tableRows_get (t : ContTable) (j : Nat) (hj : j < (tableRows t).length) :
    (tableRows t).get ⟨j, hj⟩ = rowAt t j := by
  unfold tableRows at hj ⊢
  rw [List.get_map]
  congr 1
  exact List.get_range _ _

lemma tableRows_length (t : ContTable) : (tableRows t).length = t.dates.length := by
  unfold tableRows
  rw [List.length_map, List.length_range]
/-- C4: `_get_cont_underlying_on_date` returns (as a one-row slice) the
first table row whose market-timezone midnight is at or after the queried
instant — an exact match resolves to that row — and returns the empty
slice when the instant lies after the table's last date, rather than
raising. -/
theorem C4_resolve (t : ContTable) (trading_day : Nat) :
    (get_cont_underlying_on_date t trading_day = [] ↔
      ∀ d ∈ t.dates, dayNanos d < trading_day) ∧
    (∀ i, ∀ hi : i < t.dates.length,
      (∀ j, j < i → dayNanos (t.dates.getD j 0) < trading_day) →
      trading_day ≤ dayNanos (t.dates.getD i 0) →
      get_cont_underlying_on_date t trading_day = [rowAt t i]) := by
  constructor
  · unfold get_cont_underlying_on_date
    rw [take_one_eq_head_toList, head_filter_eq_find]
    constructor
    · intro h d hd
      have hfn : (tableRows t).find? (fun r => trading_day ≤ dayNanos r.1) = none := by
        cases hf : (tableRows t).find? (fun r => trading_day ≤ dayNanos r.1) with
        | none => rfl
        | some r => rw [hf] at h; cases h
      have hall := List.find?_eq_none.mp hfn
      obtain ⟨fi, rfl⟩ := List.mem_iff_get.mp hd
      have hrow : rowAt t fi.1 ∈ tableRows t := by
        rw [← tableRows_get t fi.1 (by rw [tableRows_length]; exact fi.2)]
        exact List.get_mem _ _ _
      have hpred := hall _ hrow
      simp only [decide_eq_true_eq] at hpred
      have hfst : (rowAt t fi.1).1 = t.dates.get fi := by
        show t.dates.getD fi.1 0 = t.dates.get fi
        simp [List.getD_eq_getElem?_getD, List.getElem?_eq_getElem fi.2, List.get_eq_getElem]
      rw [hfst] at hpred
      omega
    · intro h
      have hfn : (tableRows t).find? (fun r => trading_day ≤ dayNanos r.1) = none := by
        rw [List.find?_eq_none]
        intro r hr
        unfold tableRows at hr
        simp only [List.mem_map, List.mem_range] at hr
        obtain ⟨i, hi, rfl⟩ := hr
        have hfst : (rowAt t i).1 = t.dates.get ⟨i, hi⟩ := by
          show t.dates.getD i 0 = t.dates.get ⟨i, hi⟩
          simp [List.getD_eq_getElem?_getD, List.getElem?_eq_getElem hi, List.get_eq_getElem]
        have hdi := h (t.dates.get ⟨i, hi⟩) (List.get_mem _ _ _)
        simp only [hfst, decide_eq_true_eq]
        omega
      rw [hfn]
      rfl
  · intro i hi hlt hge
    unfold get_cont_underlying_on_date
    rw [take_one_eq_head_toList, head_filter_eq_find]
    have hi' : i < (tableRows t).length := by rw [tableRows_length]; exact hi
    have hfind := find_eq_of_least (tableRows t) (fun r => trading_day ≤ dayNanos r.1) i hi'
      (fun j hj hji => by
        rw [tableRows_get t j hj]
        have hjv := hlt j hji
        have hfst : (rowAt t j).1 = t.dates.getD j 0 := rfl
        simp only [hfst, decide_eq_false_iff_not]
        omega)
      (by
        rw [tableRows_get t i hi']
        simp only [decide_eq_true_eq]
        exact hge)
    rw [hfind, tableRows_get t i hi']
    rfl

/-- Witness for C4 on a two-row table (2019-12-06, 2019-12-09): an instant
on the non-trading 12-07 resolves to the 12-09 row, an instant exactly on
12-06 resolves to the 12-06 row itself, and an instant past the last row
yields the empty slice. -/
theorem C4_resolve_witness :
    get_cont_underlying_on_date
        ⟨[civilToDay 2019 12 6, civilToDay 2019 12 9],
          [("KQ.m@DCE.a", [some "X2001", some "X2005"])]⟩
        (dayNanos (civilToDay 2019 12 7)) =
      [rowAt ⟨[civilToDay 2019 12 6, civilToDay 2019 12 9],
          [("KQ.m@DCE.a", [some "X2001", some "X2005"])]⟩ 1] ∧
    get_cont_underlying_on_date
        ⟨[civilToDay 2019 12 6, civilToDay 2019 12 9],
          [("KQ.m@DCE.a", [some "X2001", some "X2005"])]⟩
        (dayNanos (civilToDay 2019 12 6)) =
      [rowAt ⟨[civilToDay 2019 12 6, civilToDay 2019 12 9],
          [("KQ.m@DCE.a", [some "X2001", some "X2005"])]⟩ 0] ∧
    get_cont_underlying_on_date
        ⟨[civilToDay 2019 12 6, civilToDay 2019 12 9],
          [("KQ.m@DCE.a", [some "X2001", some "X2005"])]⟩
        (dayNanos (civilToDay 2019 12 9) + 1) = [] :=
  ⟨(C4_resolve _ _).2 1 (by decide) (by decide) (by decide),
    (C4_resolve _ _).2 0 (by decide) (by decide) (by decide),
    (C4_resolve _ _).1.mpr (by decide)⟩
/-- Decidable equality for `Except` results, used to evaluate the model at
concrete inputs. -/
instance exceptDecidableEq {e a : Type} [DecidableEq e] [DecidableEq a] :
    DecidableEq (Except e a)
  | .error x, .error y =>
    if h : x = y then .isTrue (h ▸ rfl) else .isFalse (fun hh => h (Except.error.inj hh))
  | .error _, .ok _ => .isFalse (fun hh => Except.noConfusion hh)
  | .ok _, .error _ => .isFalse (fun hh => Except.noConfusion hh)
  | .ok x, .ok y =>
    if h : x = y then .isTrue (h ▸ rfl) else .isFalse (fun hh => h (Except.ok.inj hh))

/-- C5 counterexample: with two roll entries on the same date (2019-12-09,
a Monday) and a one-day range, the per-series value series after step 5
has 2 values against 1 trading-day row, yet construction succeeds and
silently attaches a truncated column — no assertion fires. -/
theorem C5_counterexample :
    (contValues [(civilToDay 2019 12 9, "A"), (civilToDay 2019 12 9, "B")]
        (tradingDays (civilToDay 2019 12 9) (civilToDay 2019 12 9) [])).length = 2 ∧
    (tradingDays (civilToDay 2019 12 9) (civilToDay 2019 12 9) []).length = 1 ∧
    tq_init [("KQ.m@DCE.a", [(20191209, "A"), (20191209, "B")])]
        (civilToDay 2019 12 9) (civilToDay 2019 12 9) [] (some ["KQ.m@DCE.a"]) =
      .ok { dates := [civilToDay 2019 12 9],
            cols := [("KQ.m@DCE.a", [some "A"])] } := by
  refine ⟨by decide, by decide, ?_⟩
  decide

/-- C5 as amended: no row-count check exists.  Whatever the per-series
value count after step 5, construction succeeds, and the series column is
attached positionally — cell `i` is the `i`-th value when present
(surplus values silently dropped, missing positions left as `NaN`). -/
theorem C5_no_assertion (catalog : Catalog) (s e : Nat) (holidays : List Nat)
    (syms : List String)
    (hvalid : syms.all (fun k => catalog.any (fun kv => kv.1 == k)) = true)
    (hne : tradingDays s e holidays ≠ []) (k : String) (hk : k ∈ syms) :
    ∃ t, tq_init catalog s e holidays (some syms) = .ok t ∧
      (k, (List.range (tradingDays s e holidays).length).map
          (fun i => (contValues
              ((lookupCont catalog k).map (fun p => (parseYYYYMMDD p.1, p.2)))
              (tradingDays s e holidays)).get? i)) ∈ t.cols := by
  refine ⟨⟨tradingDays s e holidays,
    syms.map (fun k => (k, ensure_cont_on_df (lookupCont catalog k) (tradingDays s e holidays)))⟩,
    ?_, ?_⟩
  · show (if (syms.all fun k => catalog.any fun kv => kv.1 == k) = true
        then buildTable catalog (tradingDays s e holidays) syms
        else Except.error (CalError.unknownSeries syms)) = _
    rw [if_pos hvalid, buildTable_spec _ _ _ hne]
  · exact List.mem_map.mpr ⟨k, hk, rfl⟩

/-- Witness for the amended C5, at the duplicated-roll-date input of the
counterexample. -/
theorem C5_no_assertion_witness :
    ∃ t, tq_init [("KQ.m@DCE.a", [(20191209, "A"), (20191209, "B")])]
        (civilToDay 2019 12 9) (civilToDay 2019 12 9) [] (some ["KQ.m@DCE.a"]) = .ok t ∧
      ("KQ.m@DCE.a", (List.range (tradingDays (civilToDay 2019 12 9)
            (civilToDay 2019 12 9) []).length).map
          (fun i => (contValues
              ((lookupCont [("KQ.m@DCE.a", [(20191209, "A"), (20191209, "B")])]
                  "KQ.m@DCE.a").map (fun p => (parseYYYYMMDD p.1, p.2)))
              (tradingDays (civilToDay 2019 12 9) (civilToDay 2019 12 9) [])).get? i)) ∈ t.cols :=
  C5_no_assertion [("KQ.m@DCE.a", [(20191209, "A"), (20191209, "B")])]
    (civilToDay 2019 12 9) (civilToDay 2019 12 9) [] ["KQ.m@DCE.a"]
    (by decide) (by decide) "KQ.m@DCE.a" (by decide)

/-- C7: building with an explicit symbol list raises the unknown-symbols
exception iff some requested key is absent from the catalog; the check
runs before any column is attached (an error means no table is produced at
all, whatever the range contents), and the raised message carries the full
requested list, hence every invalid key. -/
theorem C7_unknown_symbols (catalog : Catalog) (s e : Nat) (holidays : List Nat)
    (syms : List String) :
    (tq_init catalog s e holidays (some syms) = .error (.unknownSeries syms) ↔
      ∃ k ∈ syms, catalog.find? (fun kv => kv.1 == k) = none) ∧
    (∀ k ∈ syms, catalog.find? (fun kv => kv.1 == k) = none → k ∈ syms) := by
  constructor
  · show ((if (syms.all fun k => catalog.any fun kv => kv.1 == k) = true
        then buildTable catalog (tradingDays s e holidays) syms
        else Except.error (CalError.unknownSeries syms)) = .error (.unknownSeries syms) ↔ _)
    by_cases hall : (syms.all fun k => catalog.any fun kv => kv.1 == k) = true
    · rw [if_pos hall]
      constructor
      · intro hb
        exfalso
        unfold buildTable at hb
        by_cases he : (tradingDays s e holidays).isEmpty = true
        · rw [if_pos he] at hb
          simp at hb
        · rw [if_neg he] at hb
          simp at hb
      · rintro ⟨k, hk, hfind⟩
        exfalso
        have hany := (List.all_eq_true.mp hall) k hk
        obtain ⟨kv, hkv, hkvk⟩ := List.any_eq_true.mp hany
        exact absurd hkvk (by simpa using List.find?_eq_none.mp hfind kv hkv)
    · rw [if_neg hall]
      constructor
      · intro _
        simp only [List.all_eq_true, not_forall] at hall
        obtain ⟨k, hk, hnany⟩ := hall
        refine ⟨k, hk, List.find?_eq_none.mpr ?_⟩
        intro kv hkv hkvk
        exact hnany (List.any_eq_true.mpr ⟨kv, hkv, hkvk⟩)
      · intro _
        rfl
  · exact fun k hk _ => hk

/-- Witness for C7: requesting an absent key `KQ.m@DCE.b` against a
catalog holding only `KQ.m@DCE.a` is rejected with the full request in the
error. -/
theorem C7_unknown_symbols_witness :
    tq_init [("KQ.m@DCE.a", [])] (civilToDay 2019 12 9) (civilToDay 2019 12 9) []
        (some ["KQ.m@DCE.a", "KQ.m@DCE.b"]) =
      .error (.unknownSeries ["KQ.m@DCE.a", "KQ.m@DCE.b"]) :=
  (C7_unknown_symbols [("KQ.m@DCE.a", [])] (civilToDay 2019 12 9) (civilToDay 2019 12 9)
    [] ["KQ.m@DCE.a", "KQ.m@DCE.b"]).1.mpr ⟨"KQ.m@DCE.b", by decide, by decide⟩

/-- C10: a requested range containing no trading day makes the constructor
raise `IndexError` at `self.df.iloc[0]` (after symbol validation), instead
of producing an empty view. -/
theorem C10_empty_range (catalog : Catalog) (s e : Nat) (holidays : List Nat)
    (syms : Option (List String))
    (hsym : ∀ l, syms = some l → l.all (fun k => catalog.any (fun kv => kv.1 == k)) = true)
    (hempty : tradingDays s e holidays = []) :
    tq_init catalog s e holidays syms = .error .indexError := by
  cases syms with
  | none =>
    show buildTable catalog (tradingDays s e holidays) (catalog.map Prod.fst) = _
    unfold buildTable
    rw [hempty]
    rfl
  | some l =>
    show (if (l.all fun k => catalog.any fun kv => kv.1 == k) = true
        then buildTable catalog (tradingDays s e holidays) l
        else Except.error (CalError.unknownSeries l)) = _
    rw [if_pos (hsym l rfl)]
    unfold buildTable
    rw [hempty]
    rfl

/-- Witness for C10: 2019-12-07 .. 2019-12-08 is a pure weekend, so no
trading day exists and construction fails with `IndexError`. -/
theorem C10_empty_range_witness :
    tq_init [("KQ.m@DCE.a", [])] (civilToDay 2019 12 7) (civilToDay 2019 12 8) [] none =
      .error .indexError :=
  C10_empty_range [("KQ.m@DCE.a", [])] (civilToDay 2019 12 7) (civilToDay 2019 12 8) []
    none (fun l h => nomatch h) (by decide)
lemma getLastD_mem {α : Type} (a : α) (t : List α) (d : α) : (a :: t).getLastD d ∈ a :: t := by
  induction t generalizing a with
  | nil => simp [List.getLastD]
  | cons b t ih =>
    rw [show (a :: b :: t).getLastD d = (b :: t).getLastD d from rfl]
    exact List.mem_cons_of_mem a (ih b)

lemma getLast_cons_eq_getLastD {α : Type} (a : α) (t : List α) (d : α) :
    (a :: t).getLast? = some ((a :: t).getLastD d) := by
  rw [List.getLastD_eq_getLast?]
  cases hgl : (a :: t).getLast? with
  | none => exact absurd (List.getLast?_eq_none_iff.mp hgl) (List.cons_ne_nil a t)
  | some b => rfl

lemma parseYear_of_valid {x : DateStr} (h : isoValid x = true) :
    parseYear x = some (isoYear x) := by
  cases x with
  | junk => simp [isoValid] at h
  | iso y m d => rfl

lemma toDatetime_of_valid {x : DateStr} (h : isoValid x = true) :
    toDatetime x = some (isoDay x) := by
  cases x with
  | junk => simp [isoValid] at h
  | iso y m d =>
    show (if isoValid (DateStr.iso y m d) = true then some (civilToDay y m d) else none) = _
    rw [if_pos h]
    rfl

lemma allDatetimes_of_valid {xs : List DateStr} (h : ∀ x ∈ xs, isoValid x = true) :
    allDatetimes xs = some (holidayDays xs) := by
  induction xs with
  | nil => rfl
  | cons a t ih =>
    unfold allDatetimes
    rw [toDatetime_of_valid (h a (List.mem_cons_self a t)),
      ih (fun x hx => h x (List.mem_cons_of_mem a hx))]
    rfl

lemma init_cached (st : HolidayCache) {l : List Nat} (hl : st.rest_days_df = some l)
    (resp : Option HttpResp) :
    init_chinese_rest_days st resp = (st, false, .ok st.chinese_holidays_range) := by
  unfold init_chinese_rest_days
  rw [hl]

/-- Evaluation of a fresh-cache load on a fully valid, nonempty payload:
the cache is populated with the parsed dates and the Jan-1..Dec-31 range,
regardless of the HTTP status code. -/
lemma init_on_valid_payload (st : HolidayCache) (hfresh : st.rest_days_df = none)
    (status : Nat) (xs : List DateStr) (hval : ∀ x ∈ xs, isoValid x = true)
    (hne : xs ≠ []) :
    init_chinese_rest_days st (some ⟨status, .json xs⟩) =
      ({ rest_days_df := some (holidayDays xs),
         chinese_holidays_range := some (holidayRangeOf xs) }, true,
        .ok (some (holidayRangeOf xs))) := by
  cases xs with
  | nil => exact absurd rfl hne
  | cons a t =>
    have hgl := getLast_cons_eq_getLastD a t DateStr.junk
    have hpy1 : parseYear a = some (isoYear a) :=
      parseYear_of_valid (hval a (List.mem_cons_self a t))
    have hpy2 : parseYear ((a :: t).getLastD .junk) =
        some (isoYear ((a :: t).getLastD .junk)) :=
      parseYear_of_valid (hval _ (getLastD_mem a t .junk))
    have had : allDatetimes (a :: t) = some (holidayDays (a :: t)) :=
      allDatetimes_of_valid hval
    unfold init_chinese_rest_days
    rw [hfresh]
    simp only [List.head?_cons, hgl, hpy1, hpy2, had]
    rfl
lemma init_fresh_none (st : HolidayCache) (hfresh : st.rest_days_df = none) :
    init_chinese_rest_days st none = (st, true, .error .fetchError) := by
  unfold init_chinese_rest_days
  rw [hfresh]

lemma init_fresh_notJson (st : HolidayCache) (hfresh : st.rest_days_df = none)
    (status : Nat) :
    init_chinese_rest_days st (some ⟨status, .notJson⟩) = (st, true, .error .parseError) := by
  unfold init_chinese_rest_days
  rw [hfresh]

lemma init_fresh_json (st : HolidayCache) (hfresh : st.rest_days_df = none)
    (status : Nat) (a : DateStr) (t : List DateStr) :
    init_chinese_rest_days st (some ⟨status, .json (a :: t)⟩) =
      (match parseYear a, parseYear ((a :: t).getLastD .junk) with
        | some y1, some y2 =>
          match allDatetimes (a :: t) with
          | some ds =>
            ({ rest_days_df := some ds,
               chinese_holidays_range := some (civilToDay y1 1 1, civilToDay y2 12 31) }, true,
              .ok (some (civilToDay y1 1 1, civilToDay y2 12 31)))
          | none =>
            ({ st with
                chinese_holidays_range := some (civilToDay y1 1 1, civilToDay y2 12 31) },
              true, .error .parseError)
        | _, _ => (st, true, .error .parseError)) := by
  unfold init_chinese_rest_days
  rw [hfresh]
  simp only [List.head?_cons, getLast_cons_eq_getLastD a t DateStr.junk]

/-- Any failing outcome of the load leaves `rest_days_df` unpopulated (the
holiday set itself is never filled from a bad response), though the range
global may have been set. -/
lemma init_error_df (st : HolidayCache) (hfresh : st.rest_days_df = none)
    (resp : Option HttpResp)
    (h : (init_chinese_rest_days st resp).2.2.isOk = false) :
    (init_chinese_rest_days st resp).1.rest_days_df = none := by
  cases resp with
  | none => rw [init_fresh_none st hfresh]; exact hfresh
  | some rsp =>
    cases rsp with
    | mk status pl =>
      cases pl with
      | notJson => rw [init_fresh_notJson st hfresh status]; exact hfresh
      | json xs =>
        cases xs with
        | nil =>
          have he : init_chinese_rest_days st (some ⟨status, .json []⟩) =
              (st, true, .error .indexError) := by
            unfold init_chinese_rest_days
            rw [hfresh]
            rfl
          rw [he]
          exact hfresh
        | cons a t =>
          rw [init_fresh_json st hfresh status a t] at h ⊢
          cases hpa : parseYear a with
          | none => simp only [hpa]; exact hfresh
          | some y1 =>
            cases hpb : parseYear ((a :: t).getLastD .junk) with
            | none => simp only [hpa, hpb]; exact hfresh
            | some y2 =>
              cases had : allDatetimes (a :: t) with
              | none => simp only [hpa, hpb, had]; exact hfresh
              | some ds =>
                rw [hpa, hpb, had] at h
                simp [Except.isOk, Except.toBool] at h

/-- A successful call leaves the holiday cache populated and records
exactly the returned range. -/
lemma init_ok_state (st : HolidayCache) (resp : Option HttpResp) (rg : Option (Nat × Nat))
    (h : (init_chinese_rest_days st resp).2.2 = .ok rg) :
    (∃ l, (init_chinese_rest_days st resp).1.rest_days_df = some l) ∧
    (init_chinese_rest_days st resp).1.chinese_holidays_range = rg := by
  cases hdf : st.rest_days_df with
  | some l =>
    rw [init_cached st hdf resp] at h ⊢
    exact ⟨⟨l, hdf⟩, by simpa using h⟩
  | none =>
    cases resp with
    | none =>
      rw [init_fresh_none st hdf] at h
      simp at h
    | some rsp =>
      cases rsp with
      | mk status pl =>
        cases pl with
        | notJson =>
          rw [init_fresh_notJson st hdf status] at h
          simp at h
        | json xs =>
          cases xs with
          | nil =>
            have he : init_chinese_rest_days st (some ⟨status, .json []⟩) =
                (st, true, .error .indexError) := by
              unfold init_chinese_rest_days
              rw [hdf]
              rfl
            rw [he] at h
            simp at h
          | cons a t =>
            rw [init_fresh_json st hdf status a t] at h ⊢
            cases hpa : parseYear a with
            | none => rw [hpa] at h; simp at h
            | some y1 =>
              cases hpb : parseYear ((a :: t).getLastD .junk) with
              | none => rw [hpa, hpb] at h; simp at h
              | some y2 =>
                cases had : allDatetimes (a :: t) with
                | none => rw [hpa, hpb, had] at h; simp at h
                | some ds =>
                  rw [hpa, hpb, had] at h
                  simp only [hpa, hpb, had]
                  have hrg : rg = some (civilToDay y1 1 1, civilToDay y2 12 31) := by
                    simpa using h.symm
                  exact ⟨⟨ds, rfl⟩, by rw [hrg]⟩
lemma cont_cached (c : Catalog) (q : Option ContResp) :
    init_continuous (some c) q = (some c, false, .ok c) := rfl

lemma cont_ok_state (cc : Option Catalog) (q : Option ContResp) (cat : Catalog)
    (h : (init_continuous cc q).2.2 = .ok cat) : (init_continuous cc q).1 = some cat := by
  cases cc with
  | some c =>
    rw [cont_cached c q] at h
    have hc : c = cat := by simpa using h
    rw [cont_cached c q, hc]
  | none =>
    cases q with
    | none => simp [init_continuous] at h
    | some rsp =>
      have hred : init_continuous none (some rsp) =
          (if 400 ≤ rsp.status then (none, true, .error .fetchError)
            else match rsp.payload with
              | none => (none, true, .error .parseError)
              | some kvs =>
                (some (kvs.map (fun kv => ("KQ.m@" ++ kv.1, kv.2))), true,
                  .ok (kvs.map (fun kv => ("KQ.m@" ++ kv.1, kv.2))))) := rfl
      rw [hred] at h ⊢
      by_cases hs : 400 ≤ rsp.status
      · rw [if_pos hs] at h
        simp at h
      · rw [if_neg hs] at h ⊢
        cases hpl : rsp.payload with
        | none =>
          rw [hpl] at h
          simp at h
        | some kvs =>
          rw [hpl] at h
          have hc : kvs.map (fun kv => ("KQ.m@" ++ kv.1, kv.2)) = cat := by simpa using h
          simp [hc]

/-- C6 counterexample.  First conjunct: a response with HTTP status 404
whose body is a well-formed date list is accepted — the cache is fully
populated and the call succeeds, where the claim demands a `FetchError`.
Second conjunct: a payload whose first and last entries parse but which
contains a malformed date (2019-02-31) raises, yet has already populated
the `chinese_holidays_range` half of the cache. -/
theorem C6_counterexample :
    init_chinese_rest_days ⟨none, none⟩ (some ⟨404, .json [.iso 2019 1 1]⟩) =
      ({ rest_days_df := some [civilToDay 2019 1 1],
         chinese_holidays_range := some (civilToDay 2019 1 1, civilToDay 2019 12 31) },
        true, .ok (some (civilToDay 2019 1 1, civilToDay 2019 12 31))) ∧
    init_chinese_rest_days ⟨none, none⟩
        (some ⟨200, .json [.iso 2019 1 1, .iso 2019 2 31]⟩) =
      ({ rest_days_df := none,
         chinese_holidays_range := some (civilToDay 2019 1 1, civilToDay 2019 12 31) },
        true, .error .parseError) := by
  constructor
  · decide
  · decide

/-- C6 as amended: the load fails with the transport error exactly when
the network call itself fails; the HTTP status is never consulted, so a
response whose body is a well-formed, nonempty list of valid ISO dates
populates the cache and succeeds for any status; a body that is not JSON
fails with a parse error leaving the cache untouched; and on any failing
outcome the holiday set (`rest_days_df`) is never populated — though the
`validRange` global may already have been set. -/
theorem C6_error_model (st : HolidayCache) (hfresh : st.rest_days_df = none) :
    (init_chinese_rest_days st none = (st, true, .error .fetchError)) ∧
    (∀ status xs, (∀ x ∈ xs, isoValid x = true) → xs ≠ [] →
      init_chinese_rest_days st (some ⟨status, .json xs⟩) =
        ({ rest_days_df := some (holidayDays xs),
           chinese_holidays_range := some (holidayRangeOf xs) }, true,
          .ok (some (holidayRangeOf xs)))) ∧
    (∀ status, init_chinese_rest_days st (some ⟨status, .notJson⟩) =
      (st, true, .error .parseError)) ∧
    (∀ resp, (init_chinese_rest_days st resp).2.2.isOk = false →
      (init_chinese_rest_days st resp).1.rest_days_df = none) :=
  ⟨init_fresh_none st hfresh,
    fun status xs hval hne => init_on_valid_payload st hfresh status xs hval hne,
    fun status => init_fresh_notJson st hfresh status,
    fun resp h => init_error_df st hfresh resp h⟩

/-- Witness for the amended C6 at the fresh module state: a transport
failure raises the fetch error, and a status-200 well-formed payload
populates the cache. -/
theorem C6_error_model_witness :
    init_chinese_rest_days ⟨none, none⟩ none =
      (⟨none, none⟩, true, .error .fetchError) ∧
    init_chinese_rest_days ⟨none, none⟩ (some ⟨200, .json [.iso 2019 10 1]⟩) =
      ({ rest_days_df := some (holidayDays [.iso 2019 10 1]),
         chinese_holidays_range := some (holidayRangeOf [.iso 2019 10 1]) }, true,
        .ok (some (holidayRangeOf [.iso 2019 10 1]))) :=
  ⟨(C6_error_model ⟨none, none⟩ rfl).1,
    (C6_error_model ⟨none, none⟩ rfl).2.1 200 [.iso 2019 10 1] (by decide) (by decide)⟩

/-- C8: both process-wide loads are idempotent.  After a successful first
call, a second call returns the same range (resp. the same catalog),
reports no new fetch, and leaves the cache exactly as it was. -/
theorem C8_idempotent_loads (st : HolidayCache) (r1 r2 : Option HttpResp)
    (rg : Option (Nat × Nat)) (h1 : (init_chinese_rest_days st r1).2.2 = .ok rg)
    (cc : Option Catalog) (q1 q2 : Option ContResp) (cat : Catalog)
    (h2 : (init_continuous cc q1).2.2 = .ok cat) :
    init_chinese_rest_days (init_chinese_rest_days st r1).1 r2 =
      ((init_chinese_rest_days st r1).1, false, .ok rg) ∧
    init_continuous (init_continuous cc q1).1 q2 =
      ((init_continuous cc q1).1, false, .ok cat) := by
  constructor
  · obtain ⟨⟨l, hl⟩, hrg⟩ := init_ok_state st r1 rg h1
    rw [init_cached _ hl r2, hrg]
  · rw [cont_ok_state cc q1 cat h2]
    exact cont_cached cat q2

/-- Witness for C8: after successful first loads (one holiday, one
continuous symbol), repeated calls return the cached values with no
fetch. -/
theorem C8_idempotent_loads_witness :
    init_chinese_rest_days
        (init_chinese_rest_days ⟨none, none⟩ (some ⟨200, .json [.iso 2019 1 1]⟩)).1 none =
      ((init_chinese_rest_days ⟨none, none⟩ (some ⟨200, .json [.iso 2019 1 1]⟩)).1, false,
        .ok (some (civilToDay 2019 1 1, civilToDay 2019 12 31))) ∧
    init_continuous
        (init_continuous none (some ⟨200, some [("DCE.a", [(20191206, "X2001")])]⟩)).1 none =
      ((init_continuous none (some ⟨200, some [("DCE.a", [(20191206, "X2001")])]⟩)).1, false,
        .ok [("KQ.m@DCE.a", [(20191206, "X2001")])]) :=
  C8_idempotent_loads ⟨none, none⟩ (some ⟨200, .json [.iso 2019 1 1]⟩) none
    (some (civilToDay 2019 1 1, civilToDay 2019 12 31)) (by decide)
    none (some ⟨200, some [("DCE.a", [(20191206, "X2001")])]⟩) none
    [("KQ.m@DCE.a", [(20191206, "X2001")])] (by decide)
lemma civilDoe_step (y : Nat) : civilDoe y + 365 ≤ civilDoe (y + 1) := by
  unfold civilDoe
  omega

lemma getD_le_of_all {l : List Nat} (h : ∀ x ∈ l, x ≤ 31) :
    ∀ i : Nat, l.getD i 0 ≤ 31 := by
  induction l with
  | nil => intro i; simp [List.getD]
  | cons a t ih =>
    intro i
    cases i with
    | zero => exact h a (List.mem_cons_self a t)
    | succ n => exact ih (fun x hx => h x (List.mem_cons_of_mem a hx)) n

lemma daysInMonth_le_31 (y m : Nat) : daysInMonth y m ≤ 31 := by
  unfold daysInMonth
  apply getD_le_of_all
  intro x hx
  by_cases hl : isLeap y = true <;> simp [hl] at hx <;> omega

lemma monthDoy_le (m d : Nat) (h3 : 3 ≤ m) (h12 : m ≤ 12) (hd : d ≤ 31) :
    monthDoy m d ≤ 305 := by
  unfold monthDoy
  interval_cases m <;> simp <;> omega

lemma monthDoy_ge_306 (m d : Nat) (hm : m ≤ 2) (h1 : 1 ≤ m) (hd : 1 ≤ d) :
    306 ≤ monthDoy m d := by
  unfold monthDoy
  interval_cases m <;> simp <;> omega

lemma monthDoy_le_367 (m d : Nat) (hm : m ≤ 2) (h1 : 1 ≤ m) (hd : d ≤ 31) :
    monthDoy m d ≤ 367 := by
  unfold monthDoy
  interval_cases m <;> simp <;> omega

/-- Jan 1 is the earliest day of its calendar year. -/
lemma jan1_le (y m d : Nat) (hy : 1 ≤ y) (h1 : 1 ≤ m) (h12 : m ≤ 12) (hd : 1 ≤ d) :
    civilToDay y 1 1 ≤ civilToDay y m d := by
  unfold civilToDay
  by_cases hm : m ≤ 2
  · rw [if_pos hm, if_pos (by omega : (1:Nat) ≤ 2)]
    have := monthDoy_ge_306 m d hm h1 hd
    have h11 : monthDoy 1 1 = 306 := by decide
    omega

  · rw [if_neg hm, if_pos (by omega : (1:Nat) ≤ 2)]
    have hstep := civilDoe_step (y - 1)
    have hy1 : y - 1 + 1 = y := by omega
    rw [hy1] at hstep
    have h11 : monthDoy 1 1 = 306 := by decide
    omega

/-- Dec 31 is the latest day of its calendar year. -/
lemma le_dec31 (y m d : Nat) (hy : 1 ≤ y) (h1 : 1 ≤ m) (h12 : m ≤ 12) (hd : d ≤ 31) :
    civilToDay y m d ≤ civilToDay y 12 31 := by
  unfold civilToDay
  by_cases hm : m ≤ 2
  · rw [if_pos hm, if_neg (by omega : ¬((12:Nat) ≤ 2))]
    have := monthDoy_le_367 m d hm h1 hd
    have hstep := civilDoe_step (y - 1)
    have hy1 : y - 1 + 1 = y := by omega
    rw [hy1] at hstep
    have h1231 : monthDoy 12 31 = 305 := by decide
    omega
  · rw [if_neg hm, if_neg (by omega : ¬((12:Nat) ≤ 2))]
    have := monthDoy_le m d (by omega) h12 hd
    have h1231 : monthDoy 12 31 = 305 := by decide
    omega
lemma headD_mem {α : Type} {l : List α} (hne : l ≠ []) (d : α) : l.headD d ∈ l := by
  cases l with
  | nil => exact absurd rfl hne
  | cons a t => exact List.mem_cons_self a t

lemma sorted_headD_le {l : List Nat} (hp : l.Pairwise (· ≤ ·)) (d : Nat) :
    ∀ x ∈ l, l.headD d ≤ x := by
  cases l with
  | nil => intro x hx; cases hx
  | cons a t =>
    intro x hx
    rw [List.pairwise_cons] at hp
    rcases List.mem_cons.mp hx with rfl | hm
    · exact Nat.le_refl x
    · exact hp.1 x hm

lemma sorted_le_getLastD {l : List Nat} (hp : l.Pairwise (· ≤ ·)) (d : Nat) :
    ∀ x ∈ l, x ≤ l.getLastD d := by
  induction l with
  | nil => intro x hx; cases hx
  | cons a t ih =>
    rw [List.pairwise_cons] at hp
    intro x hx
    cases t with
    | nil =>
      simp at hx
      simp [List.getLastD, hx]
    | cons b t' =>
      rw [show (a :: b :: t').getLastD d = (b :: t').getLastD d from rfl]
      rcases List.mem_cons.mp hx with rfl | hm
      · exact Nat.le_trans (hp.1 b (List.mem_cons_self b t'))
          (ih hp.2 b (List.mem_cons_self b t'))
      · exact ih hp.2 x hm

lemma headD_map_isoDay {xs : List DateStr} (hne : xs ≠ []) :
    (holidayDays xs).headD 0 = isoDay (xs.headD .junk) := by
  cases xs with
  | nil => exact absurd rfl hne
  | cons a t => rfl

lemma getLastD_map_isoDay {xs : List DateStr} (hne : xs ≠ []) :
    (holidayDays xs).getLastD 0 = isoDay (xs.getLastD .junk) := by
  cases xs with
  | nil => exact absurd rfl hne
  | cons a t =>
    unfold holidayDays
    induction t generalizing a with
    | nil => rfl
    | cons b t' ih => exact ih b (List.cons_ne_nil b t')

lemma jan1_le_isoDay {x : DateStr} (h : isoValid x = true) :
    civilToDay (isoYear x) 1 1 ≤ isoDay x := by
  cases x with
  | junk => simp [isoValid] at h
  | iso y m d =>
    simp only [isoValid, Bool.and_eq_true, decide_eq_true_eq] at h
    exact jan1_le y m d h.1.1.1.1 h.1.1.1.2 h.1.1.2 h.1.2

lemma isoDay_le_dec31 {x : DateStr} (h : isoValid x = true) :
    isoDay x ≤ civilToDay (isoYear x) 12 31 := by
  cases x with
  | junk => simp [isoValid] at h
  | iso y m d =>
    simp only [isoValid, Bool.and_eq_true, decide_eq_true_eq] at h
    exact le_dec31 y m d h.1.1.1.1 h.1.1.1.2 h.1.1.2
      (Nat.le_trans h.2 (daysInMonth_le_31 y m))
/-- C9: the registry's validRange spans Jan 1 of the first holiday's year
to Dec 31 of the last holiday's year (first conjunct: the load records
exactly that range), and any date outside that window is classified as
trading exactly when its weekday is Monday..Friday — the holiday test
cannot hit, and no error is raised (the classifier is total). -/
theorem C9_out_of_window (xs : List DateStr) (hval : ∀ x ∈ xs, isoValid x = true)
    (hne : xs ≠ []) (hsorted : (holidayDays xs).Pairwise (· ≤ ·))
    (s e D : Nat) (hD1 : s ≤ D) (hD2 : D ≤ e)
    (hout : D < (holidayRangeOf xs).1 ∨ (holidayRangeOf xs).2 < D) :
    (∀ st : HolidayCache, st.rest_days_df = none → ∀ status,
      init_chinese_rest_days st (some ⟨status, .json xs⟩) =
        ({ rest_days_df := some (holidayDays xs),
           chinese_holidays_range := some (holidayRangeOf xs) }, true,
          .ok (some (holidayRangeOf xs)))) ∧
    (D, decide (dayofweek D < 5)) ∈ get_trading_calendar s e (holidayDays xs) := by
  constructor
  · exact fun st hf status => init_on_valid_payload st hf status xs hval hne
  · have hnotin : D ∉ holidayDays xs := by
      intro hmem
      obtain ⟨x, hxmem, hxd⟩ := List.mem_map.mp hmem
      have hlo : (holidayRangeOf xs).1 ≤ isoDay (xs.headD .junk) :=
        jan1_le_isoDay (hval _ (headD_mem hne .junk))
      have hhi : isoDay (xs.getLastD .junk) ≤ (holidayRangeOf xs).2 :=
        isoDay_le_dec31 (hval _ (by
          cases xs with
          | nil => exact absurd rfl hne
          | cons a t => exact getLastD_mem a t .junk))
      have h1 : (holidayDays xs).headD 0 ≤ isoDay x :=
        sorted_headD_le hsorted 0 _ (List.mem_map_of_mem isoDay hxmem)
      have h2 : isoDay x ≤ (holidayDays xs).getLastD 0 :=
        sorted_le_getLastD hsorted 0 _ (List.mem_map_of_mem isoDay hxmem)
      rw [headD_map_isoDay hne] at h1
      rw [getLastD_map_isoDay hne] at h2
      rw [hxd] at h1 h2
      omega
    have hflag : isTradingDay (holidayDays xs) D = decide (dayofweek D < 5) := by
      unfold isTradingDay
      have hc : (holidayDays xs).contains D = false := by
        cases hcc : (holidayDays xs).contains D with
        | false => rfl
        | true => exact absurd (List.elem_iff.mp hcc) hnotin
      rw [hc, Bool.not_false, Bool.and_true]
    exact List.mem_map.mpr ⟨D, mem_dateRange.mpr ⟨hD1, hD2⟩, by rw [hflag]⟩

/-- Witness for C9: with the single holiday 2019-10-01, the date
2020-03-02 (a Monday, outside the 2019 window) appears in the calendar
with a `true` flag, i.e. `decide (dayofweek D < 5)` evaluates to the
row's flag. -/
theorem C9_out_of_window_witness :
    (DateStr.iso 2020 3 2 |> isoDay,
      decide (dayofweek (isoDay (DateStr.iso 2020 3 2)) < 5)) ∈
      get_trading_calendar (isoDay (DateStr.iso 2020 3 2)) (isoDay (DateStr.iso 2020 3 2))
        (holidayDays [DateStr.iso 2019 10 1]) :=
  (C9_out_of_window [DateStr.iso 2019 10 1] (by decide) (by decide) (by decide)
    (isoDay (DateStr.iso 2020 3 2)) (isoDay (DateStr.iso 2020 3 2))
    (isoDay (DateStr.iso 2020 3 2)) (by decide) (by decide) (by decide)).2
